import Mathlib

/-!
Shallow embedding of `src/search_ensemble_for_bestfit_model.py`.

Waveform samples are modelled as exact rationals (the script computes in
double precision; the model uses exact arithmetic).  Filenames are modelled
as lists of characters, a directory as the list of filenames returned by
`os.listdir` together with an oracle mapping each filename to its parsed
content, and the external `seissolxdmf` reader as a boolean oracle telling
whether opening the file and querying its element count succeeds.
-/

/-- Dot product of two sample lists, truncated to the shorter list.  This is
one cross-correlation value, sum over j of obs[k+j]*syn[j] for a window
starting at offset k. -/
def dot (a b : List ℚ) : ℚ := (List.zipWith (· * ·) a b).sum

/-- Embedding of scipy.signal.correlate(obs, syn, mode="valid") for 1-D real
arrays: entry k (for 0 ≤ k ≤ len(obs) - len(syn)) is sum over j of
obs[k+j] * syn[j]; there are len(obs) - len(syn) + 1 valid offsets. -/
def correlate_valid (obs syn : List ℚ) : List ℚ :=
  (List.range (obs.length - syn.length + 1)).map (fun k => dot (obs.drop k) syn)

/-- Helper computing the pair (first index of the maximum, maximum value) of a
list, or none for the empty list. -/
def argmaxP : List ℚ → Option (ℕ × ℚ)
  | [] => none
  | x :: xs =>
    match argmaxP xs with
    | none => some (0, x)
    | some (j, v) => if x < v then some (j + 1, v) else some (0, x)

/-- Embedding of np.argmax: the index of the first occurrence of the maximum
(0 on the empty list, on which numpy raises). -/
def np_argmax (l : List ℚ) : ℕ := ((argmaxP l).map Prod.fst).getD 0

/-- Embedding of correlate_and_shift_waveforms: cross-correlate in valid mode,
take the argmax offset, and return the window of the observed trace of the
synthetic trace's length starting there. -/
def correlate_and_shift_waveforms (obs_trace syn_trace : List ℚ) : List ℚ :=
  (obs_trace.drop (np_argmax (correlate_valid obs_trace syn_trace))).take syn_trace.length

/-- Embedding of calculate_rms_misfit:
sqrt(sum((obs - syn)^2) / len(syn)), with the elementwise difference
truncated to the common length as numpy broadcasting requires equal shapes. -/
noncomputable def calculate_rms_misfit (obs_trace syn_trace : List ℚ) : ℝ :=
  Real.sqrt
    (((((List.zipWith (· - ·) obs_trace syn_trace).map (fun x => x ^ 2)).sum /
      (syn_trace.length : ℚ) : ℚ) : ℝ))

/-- Channel trace data[i][c] of a station-record list, [] out of bounds
(numpy would raise on an out-of-bounds index). -/
def channel (data : List (List (List ℚ))) (i c : ℕ) : List ℚ :=
  (data.getD i []).getD c []

/-- Embedding of calculate_summed_model_misfit: for every station index i and
every j in 0,1,2, align observed channel j+1 against the synthetic channel j+1
and accumulate the RMS misfits. -/
noncomputable def calculate_summed_model_misfit
    (obs_data syn_data : List (List (List ℚ))) : ℝ :=
  ((List.range obs_data.length).map (fun i =>
    ((List.range 3).map (fun j =>
      calculate_rms_misfit
        (correlate_and_shift_waveforms (channel obs_data i (j + 1))
          (channel syn_data i (j + 1)))
        (channel syn_data i (j + 1)))).sum)).sum

/-- Python/numpy slice xs[:f] with an integer bound: a non-negative bound
keeps the first f entries, a negative bound counts from the end. -/
def npSlice {α : Type} (f : ℤ) (xs : List α) : List α :=
  if 0 ≤ f then xs.take f.toNat else xs.take (xs.length - (-f).toNat)

/-- Embedding of load_seissol_surface_receiver on already-parsed file data,
the (4, ndt) list of rows time, v1, v2, v3 produced by
np.loadtxt(..., usecols=(0, 7, 8, 9)).T: it returns data[:, :final_ind]. -/
def load_seissol_surface_receiver (data : List (List ℚ)) (final_ind : ℤ := -1) :
    List (List ℚ) :=
  data.map (npSlice final_ind)

/-- Python str.split(sep) for a single-character separator, on filenames
modelled as character lists; always returns a non-empty list of parts. -/
def pySplit (sep : Char) : List Char → List (List Char)
  | [] => [[]]
  | c :: cs =>
    if c = sep then [] :: pySplit sep cs
    else
      match pySplit sep cs with
      | [] => [[c]]
      | h :: t => (c :: h) :: t

/-- Embedding of check_if_seissol_surface_receiver_file: the token "receiver"
occurs among the dash-separated components, and the last dot-separated
component (the extension) is "dat". -/
def check_if_seissol_surface_receiver_file (filename : List Char) : Bool :=
  ((pySplit '-' filename).contains "receiver".toList) &&
    ((pySplit '.' filename).getLastD [] == "dat".toList)

/-- Embedding of check_if_seissol_dir on a modelled directory: files is the
directory listing, validXdmf tells whether sx.seissolxdmf(...).ReadNElements()
succeeds on a given filename.  Some file whose last dash-separated component
is "surface.xdmf" must pass the validity check, and at least one filename
must pass the receiver-file test. -/
def check_if_seissol_dir (files : List (List Char)) (validXdmf : List Char → Bool) :
    Bool :=
  let found := files.any
    (fun i => ((pySplit '-' i).getLastD [] == "surface.xdmf".toList) && validXdmf i)
  let number_surface_receiver :=
    files.countP (fun i => check_if_seissol_surface_receiver_file i)
  if number_surface_receiver = 0 then false else found

/-- Python string comparison: lexicographic by character code point;
list.sort() sorts ascending with respect to this order. -/
def lexLe : List Char → List Char → Bool
  | [], _ => true
  | _ :: _, [] => false
  | a :: as, b :: bs => if a < b then true else if b < a then false else lexLe as bs

/-- Embedding of collect_seissol_dirs: classify i is none when
check_if_seissol_dir raised an exception on subdirectory i (the except branch
skips it), some b when it returned b; kept names are sorted ascending. -/
def collect_seissol_dirs (listing : List (List Char))
    (classify : List Char → Option Bool) : List (List Char) :=
  (listing.filter (fun i => classify i == some true)).mergeSort lexLe

/-- Embedding of load_all_seissol_receivers_from_dir on a modelled directory:
listing is os.listdir's result, content maps a filename to its parsed
(4, ndt) data; receiver files are selected, sorted, and each is loaded with
the same final_ind. -/
def load_all_seissol_receivers_from_dir (listing : List (List Char))
    (content : List Char → List (List ℚ)) (final_ind : ℤ := -1) :
    List (List (List ℚ)) :=
  ((listing.filter check_if_seissol_surface_receiver_file).mergeSort lexLe).map
    (fun i => load_seissol_surface_receiver (content i) final_ind)

/-- Embedding of load_observations: loads the observed directory through
load_all_seissol_receivers_from_dir, passing no final_ind, so the callee's
default -1 applies. -/
def load_observations (listing : List (List Char))
    (content : List Char → List (List ℚ)) : List (List (List ℚ)) :=
  load_all_seissol_receivers_from_dir listing content

lemma argmaxP_ne_none (x : ℚ) (xs : List ℚ) : argmaxP (x :: xs) ≠ none := by
  rw [argmaxP]
  cases h : argmaxP xs with
  | none => simp
  | some p =>
    obtain ⟨j, v⟩ := p
    by_cases hx : x < v <;> simp [hx]

lemma argmaxP_spec (l : List ℚ) :
    ∀ j v, argmaxP l = some (j, v) →
      ∃ h : j < l.length, l[j] = v ∧
        (∀ i (hi : i < l.length), l[i] ≤ v) ∧
        (∀ i (hi : i < l.length), i < j → l[i] < v) := by
  induction l with
  | nil => intro j v h; simp [argmaxP] at h
  | cons x xs ih =>
    intro j v h
    rw [argmaxP] at h
    cases hxs : argmaxP xs with
    | none =>
      rw [hxs] at h
      simp only [Option.some.injEq, Prod.mk.injEq] at h
      obtain ⟨rfl, rfl⟩ := h
      have hnil : xs = [] := by
        cases xs with
        | nil => rfl
        | cons y ys => exact absurd hxs (argmaxP_ne_none y ys)
      subst hnil
      refine ⟨by simp, by simp, ?_, ?_⟩
      · intro i hi
        have hi0 : i = 0 := by simpa using hi
        subst hi0
        simp
      · intro i hi hij
        omega
    | some p =>
      obtain ⟨j', v'⟩ := p
      rw [hxs] at h
      obtain ⟨hj', hget, hmax, hfirst⟩ := ih j' v' hxs
      by_cases hx : x < v'
      · simp only [hx, if_true, Option.some.injEq, Prod.mk.injEq] at h
        obtain ⟨rfl, rfl⟩ := h
        refine ⟨by simpa using Nat.succ_lt_succ hj', by simpa using hget, ?_, ?_⟩
        · intro i hi
          cases i with
          | zero => simpa using le_of_lt hx
          | succ i => simpa using hmax i (by simpa using hi)
        · intro i hi hij
          cases i with
          | zero => simpa using hx
          | succ i => simpa using hfirst i (by simpa using hi) (by omega)
      · simp only [hx, if_false, Option.some.injEq, Prod.mk.injEq] at h
        obtain ⟨rfl, rfl⟩ := h
        have hx' : v' ≤ x := le_of_not_lt hx
        refine ⟨by simp, by simp, ?_, ?_⟩
        · intro i hi
          cases i with
          | zero => simp
          | succ i => exact le_trans (by simpa using hmax i (by simpa using hi)) hx'
        · intro i hi hij
          omega

lemma np_argmax_spec (l : List ℚ) (hl : l ≠ []) :
    ∃ h : np_argmax l < l.length,
      (∀ i (hi : i < l.length), l[i] ≤ l[np_argmax l]) ∧
      (∀ i (hi : i < l.length), i < np_argmax l → l[i] < l[np_argmax l]) := by
  cases hm : argmaxP l with
  | none =>
    cases l with
    | nil => exact absurd rfl hl
    | cons x xs => exact absurd hm (argmaxP_ne_none x xs)
  | some p =>
    obtain ⟨j, v⟩ := p
    obtain ⟨hj, hget, hmax, hfirst⟩ := argmaxP_spec l j v hm
    have hnp : np_argmax l = j := by simp [np_argmax, hm]
    rw [hnp]
    refine ⟨hj, ?_, ?_⟩
    · intro i hi
      rw [hget]
      exact hmax i hi
    · intro i hi hij
      rw [hget]
      exact hfirst i hi hij

lemma correlate_valid_length (obs syn : List ℚ) :
    (correlate_valid obs syn).length = obs.length - syn.length + 1 := by
  simp [correlate_valid]

lemma correlate_valid_getElem (obs syn : List ℚ) (k : ℕ)
    (hk : k < (correlate_valid obs syn).length) :
    (correlate_valid obs syn)[k] = dot (obs.drop k) syn := by
  simp [correlate_valid]

lemma shift_argmax_spec (obs syn : List ℚ) (h2 : syn.length ≤ obs.length) :
    np_argmax (correlate_valid obs syn) + syn.length ≤ obs.length ∧
    (∀ j, j + syn.length ≤ obs.length →
      dot (obs.drop j) syn ≤
        dot (obs.drop (np_argmax (correlate_valid obs syn))) syn) ∧
    (∀ j, j < np_argmax (correlate_valid obs syn) →
      dot (obs.drop j) syn <
        dot (obs.drop (np_argmax (correlate_valid obs syn))) syn) := by
  have hclen : (correlate_valid obs syn).length = obs.length - syn.length + 1 :=
    correlate_valid_length obs syn
  have hcne : correlate_valid obs syn ≠ [] := by
    intro h
    rw [h] at hclen
    simp at hclen
  obtain ⟨hk, hmax, hfirst⟩ := np_argmax_spec (correlate_valid obs syn) hcne
  have hgetK := correlate_valid_getElem obs syn (np_argmax (correlate_valid obs syn)) hk
  refine ⟨by omega, ?_, ?_⟩
  · intro j hj
    have hjlt : j < (correlate_valid obs syn).length := by omega
    have hle := hmax j hjlt
    rwa [correlate_valid_getElem obs syn j hjlt, hgetK] at hle
  · intro j hj
    have hjk : np_argmax (correlate_valid obs syn) < (correlate_valid obs syn).length := hk
    have hjlt : j < (correlate_valid obs syn).length := by omega
    have hlt := hfirst j hjlt hj
    rwa [correlate_valid_getElem obs syn j hjlt, hgetK] at hlt

/-- C1: for traces with length(obs) ≥ length(syn) ≥ 1,
correlate_and_shift_waveforms returns the contiguous window of obs of the
synthetic trace's length starting at the offset that maximizes the valid-mode
cross-correlation of obs with syn, ties broken by the lowest offset (every
strictly earlier offset has strictly smaller correlation). -/
theorem correlate_and_shift_spec (obs syn : List ℚ) (h1 : 1 ≤ syn.length)
    (h2 : syn.length ≤ obs.length) :
    ∃ k, correlate_and_shift_waveforms obs syn = (obs.drop k).take syn.length ∧
      k + syn.length ≤ obs.length ∧
      (correlate_and_shift_waveforms obs syn).length = syn.length ∧
      (∀ j, j + syn.length ≤ obs.length →
        dot (obs.drop j) syn ≤ dot (obs.drop k) syn) ∧
      (∀ j, j < k → dot (obs.drop j) syn < dot (obs.drop k) syn) := by
  obtain ⟨hle, hmax, hfirst⟩ := shift_argmax_spec obs syn h2
  refine ⟨np_argmax (correlate_valid obs syn), rfl, hle, ?_, hmax, hfirst⟩
  simp only [correlate_and_shift_waveforms, List.length_take, List.length_drop]
  omega

/-- Witness for C1 at obs = [0, 3, 1], syn = [1]. -/
theorem correlate_and_shift_spec_witness :
    ∃ k, correlate_and_shift_waveforms [0, 3, 1] [1] =
        (([0, 3, 1] : List ℚ).drop k).take ([1] : List ℚ).length ∧
      k + ([1] : List ℚ).length ≤ ([0, 3, 1] : List ℚ).length ∧
      (correlate_and_shift_waveforms [0, 3, 1] [1]).length = ([1] : List ℚ).length ∧
      (∀ j, j + ([1] : List ℚ).length ≤ ([0, 3, 1] : List ℚ).length →
        dot (([0, 3, 1] : List ℚ).drop j) [1] ≤ dot (([0, 3, 1] : List ℚ).drop k) [1]) ∧
      (∀ j, j < k →
        dot (([0, 3, 1] : List ℚ).drop j) [1] < dot (([0, 3, 1] : List ℚ).drop k) [1]) :=
  correlate_and_shift_spec [0, 3, 1] [1] (by simp) (by simp)

lemma dot_truncate (a b : List ℚ) : dot a b = dot (a.take b.length) b := by
  unfold dot
  induction a generalizing b with
  | nil => simp
  | cons x xs ih =>
    cases b with
    | nil => simp
    | cons y ys => simp [List.take_succ_cons, ih ys]

lemma sum_sq_map_nonneg (l : List ℚ) : 0 ≤ (l.map (fun x => x ^ 2)).sum := by
  apply List.sum_nonneg
  intro x hx
  obtain ⟨y, _, rfl⟩ := List.mem_map.1 hx
  exact sq_nonneg y

lemma rms_self (a : List ℚ) : calculate_rms_misfit a a = 0 := by
  unfold calculate_rms_misfit
  have h : ((List.zipWith (· - ·) a a).map (fun x => x ^ 2)).sum = 0 := by
    induction a with
    | nil => simp
    | cons x xs ih => simp [ih]
  rw [h]
  simp

/-- C2 fails on the code: with obs = [1, 0, 2] and syn = [1] = obs[0:1]
(an exact noise-free sub-segment at offset k = 0), the valid-mode
cross-correlation [1, 0, 2] is maximized at offset 2, so the function
returns [2], not the true sub-segment [1]. -/
theorem correlate_recover_counterexample :
    ([1] : List ℚ) = (([1, 0, 2] : List ℚ).drop 0).take ([1] : List ℚ).length ∧
    correlate_and_shift_waveforms [1, 0, 2] [1] = [2] ∧
    correlate_and_shift_waveforms [1, 0, 2] [1] ≠
      (([1, 0, 2] : List ℚ).drop 0).take ([1] : List ℚ).length := by
  have h : correlate_and_shift_waveforms [1, 0, 2] [1] = [2] := by
    norm_num [correlate_and_shift_waveforms, correlate_valid, dot, List.range_succ,
      np_argmax, argmaxP]
  refine ⟨by norm_num, h, ?_⟩
  rw [h]
  norm_num

/-- C2 amended: when syn is an exact sub-segment of obs at offset k, the
function returns a window of the synthetic trace's length whose correlation
with syn is at least the autocorrelation of syn; if the true offset k is
moreover the unique maximizer of the cross-correlation, the function returns
exactly that sub-segment and the RMS misfit of the result against syn is 0. -/
theorem correlate_recover_spec (obs syn : List ℚ) (k : ℕ) (h1 : 1 ≤ syn.length)
    (hk : k + syn.length ≤ obs.length)
    (hsyn : syn = (obs.drop k).take syn.length) :
    (correlate_and_shift_waveforms obs syn).length = syn.length ∧
    dot syn syn ≤ dot (correlate_and_shift_waveforms obs syn) syn ∧
    ((∀ j, j + syn.length ≤ obs.length → j ≠ k →
        dot (obs.drop j) syn < dot (obs.drop k) syn) →
      correlate_and_shift_waveforms obs syn = syn ∧
      calculate_rms_misfit (correlate_and_shift_waveforms obs syn) syn = 0) := by
  have h2 : syn.length ≤ obs.length := by omega
  obtain ⟨hle, hmax, hfirst⟩ := shift_argmax_spec obs syn h2
  have hresult : correlate_and_shift_waveforms obs syn =
      (obs.drop (np_argmax (correlate_valid obs syn))).take syn.length := rfl
  have hdotk : dot (obs.drop k) syn = dot syn syn := by
    rw [dot_truncate (obs.drop k) syn, ← hsyn]
  have hdotK : dot (obs.drop (np_argmax (correlate_valid obs syn))) syn =
      dot (correlate_and_shift_waveforms obs syn) syn := by
    rw [hresult, dot_truncate (obs.drop (np_argmax (correlate_valid obs syn))) syn]
  refine ⟨?_, ?_, ?_⟩
  · rw [hresult]
    simp only [List.length_take, List.length_drop]
    omega
  · calc dot syn syn = dot (obs.drop k) syn := hdotk.symm
      _ ≤ dot (obs.drop (np_argmax (correlate_valid obs syn))) syn := hmax k hk
      _ = dot (correlate_and_shift_waveforms obs syn) syn := hdotK
  · intro huniq
    have hKk : np_argmax (correlate_valid obs syn) = k := by
      by_contra hne
      have hlt := huniq (np_argmax (correlate_valid obs syn)) hle hne
      have hge := hmax k hk
      linarith
    have hres : correlate_and_shift_waveforms obs syn = syn := by
      rw [hresult, hKk, ← hsyn]
    exact ⟨hres, by rw [hres]; exact rms_self syn⟩

/-- Witness for the amended C2 at obs = [5, 1, 1], syn = [5], k = 0. -/
theorem correlate_recover_spec_witness :
    (correlate_and_shift_waveforms [5, 1, 1] [5]).length = ([5] : List ℚ).length ∧
    dot [5] [5] ≤ dot (correlate_and_shift_waveforms [5, 1, 1] [5]) [5] ∧
    ((∀ j, j + ([5] : List ℚ).length ≤ ([5, 1, 1] : List ℚ).length → j ≠ 0 →
        dot (([5, 1, 1] : List ℚ).drop j) [5] < dot (([5, 1, 1] : List ℚ).drop 0) [5]) →
      correlate_and_shift_waveforms [5, 1, 1] [5] = [5] ∧
      calculate_rms_misfit (correlate_and_shift_waveforms [5, 1, 1] [5]) [5] = 0) :=
  correlate_recover_spec [5, 1, 1] [5] 0 (by simp) (by simp) (by simp)

lemma sq_diff_sum_pos (a b : List ℚ) (i : ℕ) (ha : i < a.length) (hb : i < b.length)
    (hne : a[i] ≠ b[i]) :
    0 < ((List.zipWith (· - ·) a b).map (fun x => x ^ 2)).sum := by
  induction a generalizing b i with
  | nil => simp at ha
  | cons x xs ih =>
    cases b with
    | nil => simp at hb
    | cons y ys =>
      cases i with
      | zero =>
        simp only [List.getElem_cons_zero] at hne
        have hpos : 0 < (x - y) ^ 2 := pow_two_pos_of_ne_zero (sub_ne_zero_of_ne hne)
        have hrest : 0 ≤ ((List.zipWith (· - ·) xs ys).map (fun x => x ^ 2)).sum :=
          sum_sq_map_nonneg _
        simp only [List.zipWith_cons_cons, List.map_cons, List.sum_cons]
        linarith
      | succ i =>
        simp only [List.getElem_cons_succ] at hne
        have hpos := ih ys i (by simpa using ha) (by simpa using hb) hne
        have hhead : 0 ≤ (x - y) ^ 2 := sq_nonneg _
        simp only [List.zipWith_cons_cons, List.map_cons, List.sum_cons]
        linarith

/-- C3: the RMS misfit of a trace against itself is 0; it is strictly positive
for equal-length traces differing in at least one element; and in general it
equals sqrt(sum((obs - syn)^2) / length(syn)). -/
theorem rms_misfit_spec (a b : List ℚ) :
    calculate_rms_misfit a a = 0 ∧
    (a.length = b.length →
      (∃ i, ∃ (ha : i < a.length) (hb : i < b.length), a[i] ≠ b[i]) →
      0 < calculate_rms_misfit a b) ∧
    calculate_rms_misfit a b =
      Real.sqrt ((((List.zipWith (fun x y => (x - y) ^ 2) a b).sum /
        (b.length : ℚ) : ℚ) : ℝ)) := by
  refine ⟨rms_self a, ?_, ?_⟩
  · intro _ hex
    obtain ⟨i, ha, hb, hne⟩ := hex
    unfold calculate_rms_misfit
    rw [Real.sqrt_pos]
    have hsum := sq_diff_sum_pos a b i ha hb hne
    have hlen : 0 < (b.length : ℚ) := by
      have : 0 < b.length := by omega
      exact_mod_cast this
    have hq : 0 < ((List.zipWith (· - ·) a b).map (fun x => x ^ 2)).sum /
        (b.length : ℚ) := div_pos hsum hlen
    exact_mod_cast hq
  · unfold calculate_rms_misfit
    rw [List.map_zipWith]

/-- Witness for C3 at a = [1, 2], b = [1, 3]: the misfit is strictly
positive. -/
theorem rms_misfit_spec_witness :
    0 < calculate_rms_misfit [1, 2] [1, 3] :=
  (rms_misfit_spec [1, 2] [1, 3]).2.1 (by simp)
    ⟨1, by simp, by simp, by norm_num⟩

lemma sum_map_range (n : ℕ) (f : ℕ → ℝ) :
    ((List.range n).map f).sum = ∑ i ∈ Finset.range n, f i := by
  induction n with
  | zero => simp
  | succ n ih => simp [List.range_succ, Finset.sum_range_succ, ih]

lemma rms_nonneg (a b : List ℚ) : 0 ≤ calculate_rms_misfit a b :=
  Real.sqrt_nonneg _

/-- C4: the summed model misfit is a non-negative real number and equals the
sum over all stations and the 3 non-time velocity channels of the per-channel
RMS misfits of the aligned observed window against the synthetic trace. -/
theorem summed_model_misfit_spec (obs_data syn_data : List (List (List ℚ))) :
    0 ≤ calculate_summed_model_misfit obs_data syn_data ∧
    calculate_summed_model_misfit obs_data syn_data =
      ∑ i ∈ Finset.range obs_data.length, ∑ j ∈ Finset.range 3,
        calculate_rms_misfit
          (correlate_and_shift_waveforms (channel obs_data i (j + 1))
            (channel syn_data i (j + 1)))
          (channel syn_data i (j + 1)) := by
  constructor
  · unfold calculate_summed_model_misfit
    apply List.sum_nonneg
    intro x hx
    obtain ⟨i, _, rfl⟩ := List.mem_map.1 hx
    apply List.sum_nonneg
    intro y hy
    obtain ⟨j, _, rfl⟩ := List.mem_map.1 hy
    exact rms_nonneg _ _
  · unfold calculate_summed_model_misfit
    rw [sum_map_range]
    refine Finset.sum_congr rfl ?_
    intro i _
    rw [sum_map_range]

/-- C5: with the default final_ind = -1 the receiver loader keeps all but the
last sample of each of the 4 rows, shape (4, N - 1); with a non-negative
final_ind it keeps exactly the samples with indices in [0, final_ind), shape
(4, min(final_ind, N)). -/
theorem load_receiver_shape (data : List (List ℚ)) (N : ℕ)
    (h4 : data.length = 4) (hN : ∀ row ∈ data, row.length = N) :
    ((load_seissol_surface_receiver data).length = 4 ∧
      load_seissol_surface_receiver data = data.map List.dropLast ∧
      ∀ row ∈ load_seissol_surface_receiver data, row.length = N - 1) ∧
    (∀ f : ℤ, 0 ≤ f →
      (load_seissol_surface_receiver data f).length = 4 ∧
      load_seissol_surface_receiver data f = data.map (List.take f.toNat) ∧
      ∀ row ∈ load_seissol_surface_receiver data f, row.length = min f.toNat N) := by
  constructor
  · refine ⟨by simp [load_seissol_surface_receiver, h4], ?_, ?_⟩
    · unfold load_seissol_surface_receiver
      apply List.map_congr_left
      intro r hr
      rw [List.dropLast_eq_take]
      norm_num [npSlice]
    · intro row hrow
      obtain ⟨r, hr, rfl⟩ := List.mem_map.1 hrow
      have hrN := hN r hr
      norm_num [npSlice, List.length_take]
      omega
  · intro f hf
    refine ⟨by simp [load_seissol_surface_receiver, h4], ?_, ?_⟩
    · unfold load_seissol_surface_receiver
      apply List.map_congr_left
      intro r hr
      simp [npSlice, hf]
    · intro row hrow
      obtain ⟨r, hr, rfl⟩ := List.mem_map.1 hrow
      have hrN := hN r hr
      simp [npSlice, hf, List.length_take, hrN]

/-- Witness for C5 at a concrete (4, 2) data array. -/
theorem load_receiver_shape_witness :
    ((load_seissol_surface_receiver [[1, 2], [3, 4], [5, 6], [7, 8]]).length = 4 ∧
      load_seissol_surface_receiver [[1, 2], [3, 4], [5, 6], [7, 8]] =
        ([[1, 2], [3, 4], [5, 6], [7, 8]] : List (List ℚ)).map List.dropLast ∧
      ∀ row ∈ load_seissol_surface_receiver [[1, 2], [3, 4], [5, 6], [7, 8]],
        row.length = 2 - 1) ∧
    (∀ f : ℤ, 0 ≤ f →
      (load_seissol_surface_receiver [[1, 2], [3, 4], [5, 6], [7, 8]] f).length = 4 ∧
      load_seissol_surface_receiver [[1, 2], [3, 4], [5, 6], [7, 8]] f =
        ([[1, 2], [3, 4], [5, 6], [7, 8]] : List (List ℚ)).map (List.take f.toNat) ∧
      ∀ row ∈ load_seissol_surface_receiver [[1, 2], [3, 4], [5, 6], [7, 8]] f,
        row.length = min f.toNat 2) :=
  load_receiver_shape [[1, 2], [3, 4], [5, 6], [7, 8]] 2 (by simp) (by simp)

/-- C6: a directory listing with no filename passing the receiver-file naming
test is rejected, whatever the metadata validity oracle says. -/
theorem no_receiver_rejected (files : List (List Char)) (validXdmf : List Char → Bool)
    (h : ∀ f ∈ files, check_if_seissol_surface_receiver_file f = false) :
    check_if_seissol_dir files validXdmf = false := by
  have hcount : files.countP (fun i => check_if_seissol_surface_receiver_file i) = 0 := by
    rw [List.countP_eq_zero]
    intro a ha
    simp [h a ha]
  simp [check_if_seissol_dir, hcount]

/-- Witness for C6: a directory holding only a well-formed metadata file whose
element-count query succeeds is still rejected. -/
theorem no_receiver_rejected_witness :
    check_if_seissol_dir ["m-surface.xdmf".toList] (fun _ => true) = false :=
  no_receiver_rejected ["m-surface.xdmf".toList] (fun _ => true) (by decide)

/-- C7 fails on the code: the directory [surface.xdmf, x-receiver-0.dat] with
an always-succeeding metadata oracle is accepted, yet no filename in it ends
with the suffix "-surface.xdmf" (the bare name "surface.xdmf" has no dash but
still matches the split-on-dash test of the code). -/
theorem check_dir_suffix_counterexample :
    check_if_seissol_dir ["surface.xdmf".toList, "x-receiver-0.dat".toList]
      (fun _ => true) = true ∧
    ∀ f ∈ (["surface.xdmf".toList, "x-receiver-0.dat".toList] : List (List Char)),
      ("-surface.xdmf".toList).isSuffixOf f = false := by
  constructor
  · decide
  · decide

/-- C7 amended: the classifier returns true only if some filename whose last
dash-separated component is "surface.xdmf" (equivalently: ending in
"-surface.xdmf", or being exactly "surface.xdmf") passes the metadata
validity check, and some filename passes the receiver-file naming test. -/
theorem check_dir_true_characterization (files : List (List Char))
    (validXdmf : List Char → Bool) (h : check_if_seissol_dir files validXdmf = true) :
    (∃ f ∈ files, (pySplit '-' f).getLastD [] = "surface.xdmf".toList ∧
      validXdmf f = true) ∧
    (∃ f ∈ files, check_if_seissol_surface_receiver_file f = true) := by
  simp only [check_if_seissol_dir] at h
  by_cases hc : files.countP (fun i => check_if_seissol_surface_receiver_file i) = 0
  · rw [if_pos hc] at h
    cases h
  · rw [if_neg hc] at h
    constructor
    · rw [List.any_eq_true] at h
      obtain ⟨f, hf, hfp⟩ := h
      simp only [Bool.and_eq_true, beq_iff_eq] at hfp
      exact ⟨f, hf, hfp.1, hfp.2⟩
    · have hpos : 0 < files.countP (fun i => check_if_seissol_surface_receiver_file i) :=
        Nat.pos_of_ne_zero hc
      rw [List.countP_pos_iff] at hpos
      exact hpos

/-- Witness for the amended C7 at a concrete accepted directory. -/
theorem check_dir_true_characterization_witness :
    (∃ f ∈ (["m-surface.xdmf".toList, "x-receiver-0.dat".toList] : List (List Char)),
      (pySplit '-' f).getLastD [] = "surface.xdmf".toList ∧
      (fun (_ : List Char) => true) f = true) ∧
    (∃ f ∈ (["m-surface.xdmf".toList, "x-receiver-0.dat".toList] : List (List Char)),
      check_if_seissol_surface_receiver_file f = true) :=
  check_dir_true_characterization ["m-surface.xdmf".toList, "x-receiver-0.dat".toList]
    (fun _ => true) (by decide)

lemma lexLe_total : ∀ a b : List Char, lexLe a b || lexLe b a := by
  intro a
  induction a with
  | nil => intro b; simp [lexLe]
  | cons x xs ih =>
    intro b
    cases b with
    | nil => simp [lexLe]
    | cons y ys =>
      by_cases h1 : x < y
      · simp [lexLe, h1]
      · by_cases h2 : y < x
        · simp [lexLe, h1, h2]
        · simpa [lexLe, h1, h2] using ih ys

lemma lexLe_trans : ∀ a b c : List Char, lexLe a b → lexLe b c → lexLe a c := by
  intro a
  induction a with
  | nil => intro b c _ _; simp [lexLe]
  | cons x xs ih =>
    intro b c hab hbc
    cases b with
    | nil => simp [lexLe] at hab
    | cons y ys =>
      cases c with
      | nil => simp [lexLe] at hbc
      | cons z zs =>
        by_cases hxy : x < y
        · by_cases hyz : y < z
          · simp [lexLe, lt_trans hxy hyz]
          · by_cases hzy : z < y
            · simp [lexLe, hyz, hzy] at hbc
            · have hyz' : y = z := le_antisymm (le_of_not_lt hzy) (le_of_not_lt hyz)
              subst hyz'
              simp [lexLe, hxy]
        · by_cases hyx : y < x
          · simp [lexLe, hxy, hyx] at hab
          · have hxy' : x = y := le_antisymm (le_of_not_lt hyx) (le_of_not_lt hxy)
            subst hxy'
            simp only [lexLe, lt_irrefl, if_false] at hab
            by_cases hxz : x < z
            · simp [lexLe, hxz]
            · by_cases hzx : z < x
              · simp [lexLe, hxz, hzx] at hbc
              · have hxz' : x = z := le_antisymm (le_of_not_lt hzx) (le_of_not_lt hxz)
                subst hxz'
                simp only [lexLe, lt_irrefl, if_false] at hbc ⊢
                exact ih ys zs hab hbc

/-- C8: the collected directory list is sorted ascending in the code-point
lexicographic order, has no duplicates (directory listings never repeat a
name), and contains exactly the names for which the classifier returned true
without raising. -/
theorem collect_dirs_spec (listing : List (List Char))
    (classify : List Char → Option Bool) (hnd : listing.Nodup) :
    (collect_seissol_dirs listing classify).Pairwise (fun a b => lexLe a b = true) ∧
    (collect_seissol_dirs listing classify).Nodup ∧
    (∀ x, x ∈ collect_seissol_dirs listing classify ↔
      x ∈ listing ∧ classify x = some true) := by
  refine ⟨?_, ?_, ?_⟩
  · exact List.sorted_mergeSort lexLe_trans lexLe_total _
  · exact ((List.mergeSort_perm _ _).nodup_iff).2 (hnd.filter _)
  · intro x
    simp [collect_seissol_dirs, List.mem_filter]

/-- Witness for C8 at a concrete listing. -/
theorem collect_dirs_spec_witness :
    (collect_seissol_dirs ["b".toList, "a".toList] (fun _ => some true)).Pairwise
      (fun a b => lexLe a b = true) ∧
    (collect_seissol_dirs ["b".toList, "a".toList] (fun _ => some true)).Nodup ∧
    (∀ x, x ∈ collect_seissol_dirs ["b".toList, "a".toList] (fun _ => some true) ↔
      x ∈ (["b".toList, "a".toList] : List (List Char)) ∧
      (fun (_ : List Char) => some true) x = some true) :=
  collect_dirs_spec ["b".toList, "a".toList] (fun _ => some true) (by decide)

/-- C9: a candidate on which classification raised is excluded from the
result, and the result equals the one computed from the listing with all
raising candidates removed: a single candidate's error never aborts the
scan. -/
theorem collect_dirs_error_skip (listing : List (List Char))
    (classify : List Char → Option Bool) (x : List Char) (hx : classify x = none) :
    x ∉ collect_seissol_dirs listing classify ∧
    collect_seissol_dirs listing classify =
      collect_seissol_dirs (listing.filter (fun i => (classify i).isSome)) classify := by
  constructor
  · intro hmem
    simp only [collect_seissol_dirs, List.mem_mergeSort, List.mem_filter,
      beq_iff_eq] at hmem
    rw [hx] at hmem
    cases hmem.2
  · unfold collect_seissol_dirs
    congr 1
    rw [List.filter_filter]
    apply List.filter_congr
    intro a _
    cases hca : classify a with
    | none => simp
    | some b => cases b <;> simp

/-- Witness for C9: the candidate "b" raises and is skipped while "a" is
still collected. -/
theorem collect_dirs_error_skip_witness :
    "b".toList ∉ collect_seissol_dirs ["b".toList, "a".toList]
      (fun s => if s = "b".toList then none else some true) ∧
    collect_seissol_dirs ["b".toList, "a".toList]
      (fun s => if s = "b".toList then none else some true) =
    collect_seissol_dirs ((["b".toList, "a".toList] : List (List Char)).filter
        (fun i => ((fun s => if s = "b".toList then none else some true) i).isSome))
      (fun s => if s = "b".toList then none else some true) :=
  collect_dirs_error_skip ["b".toList, "a".toList]
    (fun s => if s = "b".toList then none else some true) "b".toList (by decide)

/-- C10: load_observations loads the observed data through
load_all_seissol_receivers_from_dir with the callee's default final_ind = -1;
it takes no final_ind of its own, so the user-supplied value is never applied
to the observations. -/
theorem load_observations_default (listing : List (List Char))
    (content : List Char → List (List ℚ)) :
    load_observations listing content =
      load_all_seissol_receivers_from_dir listing content (-1) := rfl
